import Mathlib

/-!
Verification development for the ragchatchok repository: a single-page RAG
chat application. The embedding below translates, at the level of character
lists and explicit state records, the hand-rolled Markdown renderer
(renderMarkdown in the ChatInterface component), the service wrapper
(uploadToRagStore polling, generateExampleQuestions shape handling), and the
App orchestrator handlers (handleUploadAndStartChat, handleEndChat,
handleSendMessage) together with the localStorage synchronisation effect of
the persistent App variant.
-/

/-! ## Character classes used by the renderer regexes -/

/-- The backtick character (written via its code point). -/
def btChar : Char := Char.ofNat 96

/-- Whitespace class of JavaScript regexes (the characters relevant here;
further Unicode space code points behave identically for these inputs). -/
def jsWs (c : Char) : Bool :=
  c = ' ' || c = '\t' || c = '\n' || c = '\r' ||
  c = Char.ofNat 11 || c = Char.ofNat 12 || c = Char.ofNat 160 || c = Char.ofNat 65279

/-- Decimal digit class of JavaScript regexes. -/
def isDigitCh (c : Char) : Bool := '0' ≤ c && c ≤ '9'

/-! ## Splitting a string on newline, as JavaScript text.split with a
one-character separator: every occurrence splits, empty segments kept. -/

def splitLines : List Char → List (List Char)
  | [] => [[]]
  | c :: rest =>
    if c = '\n' then [] :: splitLines rest
    else
      match splitLines rest with
      | l :: ls => (c :: l) :: ls
      | [] => [[c]]

theorem splitLines_ne_nil (cs : List Char) : splitLines cs ≠ [] := by
  induction cs with
  | nil => simp [splitLines]
  | cons c rest ih =>
    simp only [splitLines]
    split
    · simp
    · cases h : splitLines rest with
      | nil => simp
      | cons l ls => simp

/-! ## The three inline substitutions of renderMarkdown

The source applies, on each line and in this order, the global regex
replacements for bold, emphasis and inline code.  A global replacement scans
positions left to right; at each position the alternatives are tried in
order, a lazy group takes the shortest closing occurrence, and scanning
resumes after the matched region. -/

/-- Split a character list at the earliest occurrence of the two adjacent
characters a, b: returns the part before and the part after the pair.  This
is the semantics of a lazy group closed by a two-character delimiter. -/
def findClose2 (a b : Char) : List Char → Option (List Char × List Char)
  | c :: c2 :: rest =>
    if c = a ∧ c2 = b then some ([], rest)
    else
      match findClose2 a b (c2 :: rest) with
      | some (p, s) => some (c :: p, s)
      | none => none
  | _ => none

theorem findClose2_length (a b : Char) :
    ∀ cs p s, findClose2 a b cs = some (p, s) → s.length + 2 ≤ cs.length := by
  intro cs
  induction cs with
  | nil => intro p s h; simp [findClose2] at h
  | cons c rest ih =>
    cases rest with
    | nil => intro p s h; simp [findClose2] at h
    | cons c2 rest2 =>
      intro p s h
      simp only [findClose2] at h
      split at h
      · simp only [Option.some.injEq, Prod.mk.injEq] at h
        obtain ⟨rfl, rfl⟩ := h
        simp
      · cases hh : findClose2 a b (c2 :: rest2) with
        | none => rw [hh] at h; simp at h
        | some ps =>
          obtain ⟨p', s'⟩ := ps
          rw [hh] at h
          simp only [Option.some.injEq, Prod.mk.injEq] at h
          obtain ⟨rfl, rfl⟩ := h
          have := ih p' s' hh
          simp at this ⊢
          omega

/-- Split a character list at the earliest occurrence of the character a:
lazy group closed by a one-character delimiter. -/
def findClose1 (a : Char) : List Char → Option (List Char × List Char)
  | [] => none
  | c :: rest =>
    if c = a then some ([], rest)
    else
      match findClose1 a rest with
      | some (p, s) => some (c :: p, s)
      | none => none

theorem findClose1_length (a : Char) :
    ∀ cs p s, findClose1 a cs = some (p, s) → s.length + 1 ≤ cs.length := by
  intro cs
  induction cs with
  | nil => intro p s h; simp [findClose1] at h
  | cons c rest ih =>
    intro p s h
    simp only [findClose1] at h
    split at h
    · simp only [Option.some.injEq, Prod.mk.injEq] at h
      obtain ⟨rfl, rfl⟩ := h
      simp
    · cases hh : findClose1 a rest with
      | none => rw [hh] at h; simp at h
      | some ps =>
        obtain ⟨p', s'⟩ := ps
        rw [hh] at h
        simp only [Option.some.injEq, Prod.mk.injEq] at h
        obtain ⟨rfl, rfl⟩ := h
        have := ih p' s' hh
        simp at this ⊢
        omega

/-- Replacement emitted for a bold match. -/
def strongOpenTag : List Char := "<strong>".toList

def strongCloseTag : List Char := "</strong>".toList

def emOpenTag : List Char := "<em>".toList

def emCloseTag : List Char := "</em>".toList

def codeOpenTag : List Char :=
  "<code class=\"bg-hitech-surface/50 px-1 py-0.5 rounded-sm font-mono text-sm\">".toList

def codeCloseTag : List Char := "</code>".toList

/-- Attempt of the bold pattern at the current position: two asterisks or
two underscores, a lazy group, the same closing pair. -/
def tryBold2 : List Char → Option (List Char × List Char)
  | c1 :: c2 :: cs =>
    if c1 = '*' ∧ c2 = '*' then findClose2 '*' '*' cs
    else if c1 = '_' ∧ c2 = '_' then findClose2 '_' '_' cs
    else none
  | _ => none

theorem tryBold2_length :
    ∀ l inner after, tryBold2 l = some (inner, after) → after.length + 4 ≤ l.length := by
  intro l inner after h
  match l with
  | [] => simp [tryBold2] at h
  | [c] => simp [tryBold2] at h
  | c1 :: c2 :: cs =>
    simp only [tryBold2] at h
    split at h
    · have := findClose2_length '*' '*' cs inner after h
      simp at this ⊢
      omega
    · split at h
      · have := findClose2_length '_' '_' cs inner after h
        simp at this ⊢
        omega
      · simp at h

/-- Attempt of the emphasis pattern at the current position: one asterisk or
one underscore, a lazy group, the same closing character. -/
def tryEm1 : List Char → Option (List Char × List Char)
  | c :: cs =>
    if c = '*' then findClose1 '*' cs
    else if c = '_' then findClose1 '_' cs
    else none
  | [] => none

theorem tryEm1_length :
    ∀ l inner after, tryEm1 l = some (inner, after) → after.length + 2 ≤ l.length := by
  intro l inner after h
  match l with
  | [] => simp [tryEm1] at h
  | c :: cs =>
    simp only [tryEm1] at h
    split at h
    · have := findClose1_length '*' cs inner after h
      simp at this ⊢
      omega
    · split at h
      · have := findClose1_length '_' cs inner after h
        simp at this ⊢
        omega
      · simp at h

/-- Attempt of the inline-code pattern at the current position: a backtick,
one or more non-backtick characters, a closing backtick. -/
def tryCode : List Char → Option (List Char × List Char)
  | c :: cs =>
    if c = btChar ∧ cs.takeWhile (fun d => ¬(d = btChar)) ≠ [] then
      match cs.dropWhile (fun d => ¬(d = btChar)) with
      | _ :: after => some (cs.takeWhile (fun d => ¬(d = btChar)), after)
      | [] => none
    else none
  | [] => none

theorem dropWhile_length_le (p : Char → Bool) :
    ∀ l : List Char, (l.dropWhile p).length ≤ l.length := by
  intro l
  induction l with
  | nil => simp
  | cons a rest ih =>
    simp only [List.dropWhile]
    cases p a <;> simp <;> omega

theorem tryCode_length :
    ∀ l inner after, tryCode l = some (inner, after) → after.length + 2 ≤ l.length := by
  intro l inner after h
  match l with
  | [] => simp [tryCode] at h
  | c :: cs =>
    simp only [tryCode] at h
    split at h
    · cases hd : cs.dropWhile (fun d => ¬(d = btChar)) with
      | nil => rw [hd] at h; simp at h
      | cons d rest =>
        rw [hd] at h
        simp only [Option.some.injEq, Prod.mk.injEq] at h
        obtain ⟨rfl, rfl⟩ := h
        have h1 : (cs.dropWhile (fun d => ¬(d = btChar))).length ≤ cs.length :=
          dropWhile_length_le _ cs
        rw [hd] at h1
        simp at h1 ⊢
        omega
    · simp at h

/-- Global replacement for the bold pattern. -/
def replaceBold (cs : List Char) : List Char :=
  match cs with
  | [] => []
  | c :: rest =>
    match h : tryBold2 (c :: rest) with
    | some (inner, after) =>
      strongOpenTag ++ inner ++ strongCloseTag ++ replaceBold after
    | none => c :: replaceBold rest
termination_by cs.length
decreasing_by
  · have := tryBold2_length (c :: rest) inner after h
    simp at this ⊢
    omega
  · simp

/-- Global replacement for the emphasis pattern. -/
def replaceEm (cs : List Char) : List Char :=
  match cs with
  | [] => []
  | c :: rest =>
    match h : tryEm1 (c :: rest) with
    | some (inner, after) =>
      emOpenTag ++ inner ++ emCloseTag ++ replaceEm after
    | none => c :: replaceEm rest
termination_by cs.length
decreasing_by
  · have := tryEm1_length (c :: rest) inner after h
    simp at this ⊢
    omega
  · simp

/-- Global replacement for the inline-code pattern. -/
def replaceCode (cs : List Char) : List Char :=
  match cs with
  | [] => []
  | c :: rest =>
    match h : tryCode (c :: rest) with
    | some (inner, after) =>
      codeOpenTag ++ inner ++ codeCloseTag ++ replaceCode after
    | none => c :: replaceCode rest
termination_by cs.length
decreasing_by
  · have := tryCode_length (c :: rest) inner after h
    simp at this ⊢
    omega
  · simp

/-- The three inline substitutions, in source order: bold, then emphasis,
then inline code. -/
def applyInline (cs : List Char) : List Char :=
  replaceCode (replaceEm (replaceBold cs))

/-! ## Line classification of renderMarkdown

After the inline substitutions, each line is matched against the
ordered-list pattern (optional whitespace, digits, a dot, one whitespace
character, rest captured) and the unordered-list pattern (optional
whitespace, an asterisk or hyphen, one whitespace character, rest
captured); otherwise it is a blank line (trims to empty) or paragraph
text. -/

/-- Ordered-list line match; returns the captured item text. -/
def parseOlL (line : List Char) : Option (List Char) :=
  let afterWs := line.dropWhile jsWs
  if afterWs.takeWhile isDigitCh = [] then none
  else
    match afterWs.dropWhile isDigitCh with
    | c1 :: c2 :: rest => if c1 = '.' ∧ jsWs c2 then some rest else none
    | _ => none

/-- Unordered-list line match; returns the captured item text. -/
def parseUlL (line : List Char) : Option (List Char) :=
  match line.dropWhile jsWs with
  | c1 :: c2 :: rest => if (c1 = '*' ∨ c1 = '-') ∧ jsWs c2 then some rest else none
  | _ => none

/-- A line whose trim is empty: all characters are whitespace. -/
def isBlankL (line : List Char) : Bool := line.all jsWs

/-- Outcome of the per-line dispatch in renderMarkdown. -/
inductive LineClass where
  | olItem (item : List Char)
  | ulItem (item : List Char)
  | blank
  | textLine (line : List Char)
deriving Repr, DecidableEq

/-- Dispatch on a line, in source order: ordered-list match first, then
unordered-list match, then the blank test. -/
def classify (line : List Char) : LineClass :=
  match parseOlL line with
  | some item => .olItem item
  | none =>
    match parseUlL line with
    | some item => .ulItem item
    | none => if isBlankL line then .blank else .textLine line

/-! ## The renderMarkdown accumulator -/

/-- Kind of the single list container that may be open. -/
inductive ListKind where
  | ul
  | ol
deriving Repr, DecidableEq

/-- Closing tag written by flushList. -/
def closeTagOf : ListKind → List Char
  | .ul => "</ul>".toList
  | .ol => "</ol>".toList

def olOpenTag : List Char :=
  "<ol class=\"list-decimal list-inside my-2 pl-5 space-y-1\">".toList

def ulOpenTag : List Char :=
  "<ul class=\"list-disc list-inside my-2 pl-5 space-y-1\">".toList

def pOpenTag : List Char := "<p class=\"my-2\">".toList

def pCloseTag : List Char := "</p>".toList

def liOpenTag : List Char := "<li>".toList

def liCloseTag : List Char := "</li>".toList

def brTag : List Char := "<br/>".toList

/-- Mutable locals of renderMarkdown: the accumulated html, the open list
container (at most one), and the paragraph buffer. -/
structure MdState where
  html : List Char
  listType : Option ListKind
  para : List Char
deriving Repr, DecidableEq

/-- flushPara: a non-empty paragraph buffer is wrapped in a paragraph
element and appended to the html. -/
def flushPara (s : MdState) : MdState :=
  if s.para = [] then s
  else { s with html := s.html ++ pOpenTag ++ s.para ++ pCloseTag, para := [] }

/-- flushList: the open list container, if any, is closed. -/
def flushList (s : MdState) : MdState :=
  match s.listType with
  | none => s
  | some k => { s with html := s.html ++ closeTagOf k, listType := none }

/-- Processing of one raw line: inline substitutions, then the dispatch. -/
def stepLine (s : MdState) (rawLine : List Char) : MdState :=
  match classify (applyInline rawLine) with
  | .olItem item =>
    let s1 := flushPara s
    let s2 :=
      if s1.listType = some ListKind.ol then s1
      else
        let s1' := flushList s1
        { s1' with html := s1'.html ++ olOpenTag, listType := some ListKind.ol }
    { s2 with html := s2.html ++ liOpenTag ++ item ++ liCloseTag }
  | .ulItem item =>
    let s1 := flushPara s
    let s2 :=
      if s1.listType = some ListKind.ul then s1
      else
        let s1' := flushList s1
        { s1' with html := s1'.html ++ ulOpenTag, listType := some ListKind.ul }
    { s2 with html := s2.html ++ liOpenTag ++ item ++ liCloseTag }
  | .blank => flushPara (flushList s)
  | .textLine line =>
    let s1 := flushList s
    { s1 with para := s1.para ++ (if s1.para = [] then [] else brTag) ++ line }

/-- renderMarkdown: empty input short-circuits to the empty fragment;
otherwise the lines are processed in order and the paragraph buffer and
open list are flushed at the end. -/
def renderMarkdown (text : String) : String :=
  if text = "" then ""
  else
    ⟨(flushList (flushPara ((splitLines text.data).foldl stepLine ⟨[], none, []⟩))).html⟩

/-! ## Instrumented trace of the emitted fragments

A parallel machine that records, instead of raw characters, the sequence of
fragments the renderer appends to the html: list container openings and
closings, list items, paragraphs.  It is proved below to reconstruct
renderMarkdown exactly, and its list-tag events are proved properly
bracketed with nesting depth at most one. -/

inductive Piece where
  | openL (k : ListKind)
  | closeL (k : ListKind)
  | li (item : List Char)
  | para (content : List Char)
deriving Repr, DecidableEq

/-- The characters a fragment contributes to the html. -/
def renderPiece : Piece → List Char
  | .openL .ul => ulOpenTag
  | .openL .ol => olOpenTag
  | .closeL k => closeTagOf k
  | .li item => liOpenTag ++ item ++ liCloseTag
  | .para content => pOpenTag ++ content ++ pCloseTag

/-- Concatenation of the fragment renderings. -/
def renderPieces (ps : List Piece) : List Char := (ps.map renderPiece).flatten

/-- State of the fragment-trace machine. -/
structure PState where
  pieces : List Piece
  listType : Option ListKind
  para : List Char
deriving Repr, DecidableEq

def flushParaP (s : PState) : PState :=
  if s.para = [] then s
  else { s with pieces := s.pieces ++ [.para s.para], para := [] }

def flushListP (s : PState) : PState :=
  match s.listType with
  | none => s
  | some k => { s with pieces := s.pieces ++ [.closeL k], listType := none }

def stepLineP (s : PState) (rawLine : List Char) : PState :=
  match classify (applyInline rawLine) with
  | .olItem item =>
    let s1 := flushParaP s
    let s2 :=
      if s1.listType = some ListKind.ol then s1
      else
        let s1' := flushListP s1
        { s1' with pieces := s1'.pieces ++ [.openL .ol], listType := some ListKind.ol }
    { s2 with pieces := s2.pieces ++ [.li item] }
  | .ulItem item =>
    let s1 := flushParaP s
    let s2 :=
      if s1.listType = some ListKind.ul then s1
      else
        let s1' := flushListP s1
        { s1' with pieces := s1'.pieces ++ [.openL .ul], listType := some ListKind.ul }
    { s2 with pieces := s2.pieces ++ [.li item] }
  | .blank => flushParaP (flushListP s)
  | .textLine line =>
    let s1 := flushListP s
    { s1 with para := s1.para ++ (if s1.para = [] then [] else brTag) ++ line }

/-- The fragment sequence renderMarkdown emits for an input. -/
def piecesOf (text : String) : List Piece :=
  if text = "" then []
  else (flushListP (flushParaP ((splitLines text.data).foldl stepLineP ⟨[], none, []⟩))).pieces

/-- Automaton over the emitted list-container tags: an opening is accepted
only with no container open, a closing only for the container that is open;
returns the final open container, or none on a bracketing violation. -/
def listTagStep : Option ListKind → Piece → Option (Option ListKind)
  | none, .openL k => some (some k)
  | some .ul, .closeL .ul => some none
  | some .ol, .closeL .ol => some none
  | st, .li _ => some st
  | st, .para _ => some st
  | _, _ => none

/-- Run of the automaton over a fragment sequence. -/
def runListTags : Option ListKind → List Piece → Option (Option ListKind)
  | st, [] => some st
  | st, p :: ps =>
    match listTagStep st p with
    | some st2 => runListTags st2 ps
    | none => none

/-! ## The trace machine reconstructs renderMarkdown -/

theorem renderPieces_append (ps qs : List Piece) :
    renderPieces (ps ++ qs) = renderPieces ps ++ renderPieces qs := by
  simp [renderPieces]

/-- Correspondence between the character accumulator and the trace
machine. -/
def MdRel (s : MdState) (p : PState) : Prop :=
  s.html = renderPieces p.pieces ∧ s.listType = p.listType ∧ s.para = p.para

theorem rel_flushPara {s : MdState} {p : PState} (h : MdRel s p) :
    MdRel (flushPara s) (flushParaP p) := by
  obtain ⟨h1, h2, h3⟩ := h
  unfold flushPara flushParaP
  rw [h3]
  split
  · exact ⟨h1, h2, h3⟩
  · refine ⟨?_, h2, rfl⟩
    simp [renderPieces_append, renderPieces, renderPiece, h1]

theorem rel_flushList {s : MdState} {p : PState} (h : MdRel s p) :
    MdRel (flushList s) (flushListP p) := by
  obtain ⟨h1, h2, h3⟩ := h
  unfold flushList flushListP
  rw [h2]
  cases hk : p.listType with
  | none => exact ⟨h1, h2, h3⟩
  | some k =>
    refine ⟨?_, rfl, h3⟩
    simp [renderPieces_append, renderPieces, renderPiece, h1]

theorem rel_stepLine {s : MdState} {p : PState} (h : MdRel s p) (rawLine : List Char) :
    MdRel (stepLine s rawLine) (stepLineP p rawLine) := by
  cases hcl : classify (applyInline rawLine) with
  | olItem item =>
    obtain ⟨g1, g2, g3⟩ := rel_flushPara h
    simp only [stepLine, stepLineP, hcl]
    by_cases hc : (flushParaP p).listType = some ListKind.ol
    · rw [if_pos (g2.trans hc), if_pos hc]
      refine ⟨?_, g2, g3⟩
      simp [renderPieces_append, renderPieces, renderPiece, g1, List.append_assoc]
    · rw [if_neg (fun hh => hc (g2.symm.trans hh)), if_neg hc]
      obtain ⟨f1, f2, f3⟩ := rel_flushList ⟨g1, g2, g3⟩
      refine ⟨?_, rfl, f3⟩
      simp [renderPieces_append, renderPieces, renderPiece, f1, List.append_assoc]
  | ulItem item =>
    obtain ⟨g1, g2, g3⟩ := rel_flushPara h
    simp only [stepLine, stepLineP, hcl]
    by_cases hc : (flushParaP p).listType = some ListKind.ul
    · rw [if_pos (g2.trans hc), if_pos hc]
      refine ⟨?_, g2, g3⟩
      simp [renderPieces_append, renderPieces, renderPiece, g1, List.append_assoc]
    · rw [if_neg (fun hh => hc (g2.symm.trans hh)), if_neg hc]
      obtain ⟨f1, f2, f3⟩ := rel_flushList ⟨g1, g2, g3⟩
      refine ⟨?_, rfl, f3⟩
      simp [renderPieces_append, renderPieces, renderPiece, f1, List.append_assoc]
  | blank =>
    simp only [stepLine, stepLineP, hcl]
    exact rel_flushPara (rel_flushList h)
  | textLine line =>
    simp only [stepLine, stepLineP, hcl]
    obtain ⟨f1, f2, f3⟩ := rel_flushList h
    exact ⟨f1, f2, by rw [f3]⟩

theorem rel_foldl (lines : List (List Char)) :
    ∀ s p, MdRel s p → MdRel (lines.foldl stepLine s) (lines.foldl stepLineP p) := by
  induction lines with
  | nil => intro s p h; exact h
  | cons l rest ih =>
    intro s p h
    exact ih _ _ (rel_stepLine h l)

/-! ## Bracketing discipline of the emitted list tags -/

theorem runListTags_append (qs : List Piece) :
    ∀ st ps, runListTags st (ps ++ qs) =
      match runListTags st ps with
      | some st2 => runListTags st2 qs
      | none => none := by
  intro st ps
  induction ps generalizing st with
  | nil => simp [runListTags]
  | cons p rest ih =>
    simp only [List.cons_append, runListTags]
    cases listTagStep st p with
    | none => simp
    | some st2 => simp [ih]

theorem runListTags_snoc (st : Option ListKind) (ps : List Piece) (p : Piece) :
    runListTags st (ps ++ [p]) =
      match runListTags st ps with
      | some st2 => listTagStep st2 p
      | none => none := by
  rw [runListTags_append]
  cases runListTags st ps with
  | none => simp
  | some st2 =>
    simp only [runListTags]
    cases listTagStep st2 p with
    | none => simp
    | some st3 => simp [runListTags]

/-- Invariant of the trace machine: its fragment sequence is accepted by
the automaton and leaves exactly the currently open container. -/
def PDisc (p : PState) : Prop := runListTags none p.pieces = some p.listType

theorem disc_flushParaP {p : PState} (h : PDisc p) : PDisc (flushParaP p) := by
  unfold flushParaP
  split
  · exact h
  · unfold PDisc at h ⊢
    simp only [runListTags_snoc, h, listTagStep]

theorem disc_flushListP {p : PState} (h : PDisc p) : PDisc (flushListP p) := by
  unfold flushListP
  cases hk : p.listType with
  | none => exact h
  | some k =>
    unfold PDisc at h ⊢
    rw [hk] at h
    simp only [runListTags_snoc, h]
    cases k <;> simp [listTagStep]

theorem flushListP_listType (p : PState) : (flushListP p).listType = none := by
  unfold flushListP
  cases hk : p.listType with
  | none => exact hk
  | some k => rfl

theorem flushParaP_listType (p : PState) : (flushParaP p).listType = p.listType := by
  unfold flushParaP
  split <;> rfl

theorem disc_stepLineP {p : PState} (h : PDisc p) (rawLine : List Char) :
    PDisc (stepLineP p rawLine) := by
  cases hcl : classify (applyInline rawLine) with
  | olItem item =>
    simp only [stepLineP, hcl]
    have h1 := disc_flushParaP h
    by_cases hc : (flushParaP p).listType = some ListKind.ol
    · rw [if_pos hc]
      unfold PDisc at h1 ⊢
      simp only [runListTags_snoc, h1, hc, listTagStep]
    · rw [if_neg hc]
      have h2 := disc_flushListP h1
      unfold PDisc at h2 ⊢
      rw [flushListP_listType] at h2
      simp only [runListTags_snoc, h2, listTagStep]
  | ulItem item =>
    simp only [stepLineP, hcl]
    have h1 := disc_flushParaP h
    by_cases hc : (flushParaP p).listType = some ListKind.ul
    · rw [if_pos hc]
      unfold PDisc at h1 ⊢
      simp only [runListTags_snoc, h1, hc, listTagStep]
    · rw [if_neg hc]
      have h2 := disc_flushListP h1
      unfold PDisc at h2 ⊢
      rw [flushListP_listType] at h2
      simp only [runListTags_snoc, h2, listTagStep]
  | blank =>
    simp only [stepLineP, hcl]
    exact disc_flushParaP (disc_flushListP h)
  | textLine line =>
    simp only [stepLineP, hcl]
    have h1 := disc_flushListP h
    unfold PDisc at h1 ⊢
    exact h1

theorem disc_foldl (lines : List (List Char)) :
    ∀ p, PDisc p → PDisc (lines.foldl stepLineP p) := by
  induction lines with
  | nil => intro p h; exact h
  | cons l rest ih => intro p h; exact ih _ (disc_stepLineP h l)

/-- C4. For every input string, the Markdown renderer keeps at most one
list container open at a time and flushes the open container before
opening a new one: the html it produces is exactly the concatenation of
the fragments it emits, and the sequence of list-container tags among
those fragments is accepted by the depth-at-most-one bracketing automaton
(every opening happens with no container open, every closing matches the
container that is open) and ends with no container open. -/
theorem renderMarkdown_list_tags_balanced (text : String) :
    renderMarkdown text = String.mk (renderPieces (piecesOf text)) ∧
    runListTags none (piecesOf text) = some none := by
  by_cases h0 : text = ""
  · subst h0
    constructor
    · rfl
    · rfl
  · have hrel : MdRel (flushList (flushPara ((splitLines text.data).foldl stepLine
        ⟨[], none, []⟩))) (flushListP (flushParaP ((splitLines text.data).foldl stepLineP
        ⟨[], none, []⟩))) :=
      rel_flushList (rel_flushPara (rel_foldl (splitLines text.data) _ _ ⟨rfl, rfl, rfl⟩))
    obtain ⟨h1, _, _⟩ := hrel
    have hdisc : PDisc (flushListP (flushParaP ((splitLines text.data).foldl stepLineP
        ⟨[], none, []⟩))) :=
      disc_flushListP (disc_flushParaP (disc_foldl (splitLines text.data) _ rfl))
    constructor
    · unfold renderMarkdown piecesOf
      rw [if_neg h0, if_neg h0]
      exact congrArg String.mk h1
    · unfold piecesOf
      rw [if_neg h0]
      unfold PDisc at hdisc
      rw [flushListP_listType] at hdisc
      exact hdisc

/-! ## Inputs without markdown tokens pass through the substitutions -/

theorem tryBold2_none {c : Char} (cs : List Char)
    (h1 : ¬(c = '*')) (h2 : ¬(c = '_')) : tryBold2 (c :: cs) = none := by
  cases cs with
  | nil => rfl
  | cons c2 rest => simp [tryBold2, h1, h2]

theorem tryEm1_none {c : Char} (cs : List Char)
    (h1 : ¬(c = '*')) (h2 : ¬(c = '_')) : tryEm1 (c :: cs) = none := by
  simp [tryEm1, h1, h2]

theorem tryCode_none {c : Char} (cs : List Char)
    (h : ¬(c = btChar)) : tryCode (c :: cs) = none := by
  simp [tryCode, h]

theorem replaceBold_cons_none {c : Char} {rest : List Char}
    (h : tryBold2 (c :: rest) = none) :
    replaceBold (c :: rest) = c :: replaceBold rest := by
  rw [replaceBold]
  split
  · rename_i inner after heq
    rw [h] at heq
    exact absurd heq (by simp)
  · rfl

theorem replaceEm_cons_none {c : Char} {rest : List Char}
    (h : tryEm1 (c :: rest) = none) :
    replaceEm (c :: rest) = c :: replaceEm rest := by
  rw [replaceEm]
  split
  · rename_i inner after heq
    rw [h] at heq
    exact absurd heq (by simp)
  · rfl

theorem replaceCode_cons_none {c : Char} {rest : List Char}
    (h : tryCode (c :: rest) = none) :
    replaceCode (c :: rest) = c :: replaceCode rest := by
  rw [replaceCode]
  split
  · rename_i inner after heq
    rw [h] at heq
    exact absurd heq (by simp)
  · rfl

theorem replaceBold_id (cs : List Char)
    (h : ∀ c ∈ cs, ¬(c = '*') ∧ ¬(c = '_')) : replaceBold cs = cs := by
  induction cs with
  | nil => rw [replaceBold]
  | cons c rest ih =>
    have hc := h c (List.mem_cons_self c rest)
    rw [replaceBold_cons_none (tryBold2_none rest hc.1 hc.2)]
    rw [ih (fun d hd => h d (List.mem_cons_of_mem c hd))]

theorem replaceEm_id (cs : List Char)
    (h : ∀ c ∈ cs, ¬(c = '*') ∧ ¬(c = '_')) : replaceEm cs = cs := by
  induction cs with
  | nil => rw [replaceEm]
  | cons c rest ih =>
    have hc := h c (List.mem_cons_self c rest)
    rw [replaceEm_cons_none (tryEm1_none rest hc.1 hc.2)]
    rw [ih (fun d hd => h d (List.mem_cons_of_mem c hd))]

theorem replaceCode_id (cs : List Char)
    (h : ∀ c ∈ cs, ¬(c = btChar)) : replaceCode cs = cs := by
  induction cs with
  | nil => rw [replaceCode]
  | cons c rest ih =>
    have hc := h c (List.mem_cons_self c rest)
    rw [replaceCode_cons_none (tryCode_none rest hc)]
    rw [ih (fun d hd => h d (List.mem_cons_of_mem c hd))]

theorem applyInline_id (cs : List Char)
    (h : ∀ c ∈ cs, ¬(c = '*') ∧ ¬(c = '_') ∧ ¬(c = btChar)) : applyInline cs = cs := by
  unfold applyInline
  rw [replaceBold_id cs (fun c hc => ⟨(h c hc).1, (h c hc).2.1⟩)]
  rw [replaceEm_id cs (fun c hc => ⟨(h c hc).1, (h c hc).2.1⟩)]
  rw [replaceCode_id cs (fun c hc => (h c hc).2.2)]

/-! ## Paragraph-only inputs -/

/-- The line breaks of a multi-line paragraph, rendered between its
lines. -/
def intercalateBr (lines : List (List Char)) : List Char :=
  match lines with
  | [] => []
  | l :: rest => l ++ (rest.map (fun r => brTag ++ r)).flatten

theorem splitLines_subset : ∀ (cs : List Char) l, l ∈ splitLines cs → ∀ c ∈ l, c ∈ cs := by
  intro cs
  induction cs with
  | nil =>
    intro l hl c hc
    simp [splitLines] at hl
    subst hl
    simp at hc
  | cons a rest ih =>
    intro l hl c hc
    simp only [splitLines] at hl
    by_cases ha : a = '\n'
    · rw [if_pos ha] at hl
      rcases List.mem_cons.mp hl with h1 | h2
      · subst h1; simp at hc
      · exact List.mem_cons_of_mem a (ih l h2 c hc)
    · rw [if_neg ha] at hl
      cases hsp : splitLines rest with
      | nil => exact absurd hsp (splitLines_ne_nil rest)
      | cons l1 ls =>
        simp only [hsp] at hl
        rcases List.mem_cons.mp hl with h1 | h2
        · subst h1
          rcases List.mem_cons.mp hc with h3 | h4
          · subst h3; exact List.mem_cons_self c rest
          · exact List.mem_cons_of_mem a
              (ih l1 (by rw [hsp]; exact List.mem_cons_self l1 ls) c h4)
        · exact List.mem_cons_of_mem a
            (ih l (by rw [hsp]; exact List.mem_cons_of_mem l1 h2) c hc)

theorem classify_text {l : List Char} (h1 : parseOlL l = none) (h2 : parseUlL l = none)
    (h3 : isBlankL l = false) : classify l = .textLine l := by
  simp [classify, h1, h2, h3]

theorem flushList_none {s : MdState} (h : s.listType = none) : flushList s = s := by
  unfold flushList
  rw [h]

theorem stepLine_text {s : MdState} {l : List Char}
    (hcl : classify (applyInline l) = .textLine l) (hlt : s.listType = none) :
    stepLine s l = { s with para := s.para ++ (if s.para = [] then [] else brTag) ++ l } := by
  simp [stepLine, hcl, flushList_none hlt]

theorem foldl_textLines (lines : List (List Char)) :
    ∀ s : MdState, (∀ l ∈ lines, classify (applyInline l) = .textLine l) →
    s.listType = none → ¬(s.para = []) →
    lines.foldl stepLine s =
      ⟨s.html, none, s.para ++ (lines.map (fun r => brTag ++ r)).flatten⟩ := by
  induction lines with
  | nil =>
    intro s h hlt hp
    cases s with
    | mk html lt para =>
      simp at hlt
      simp [hlt]
  | cons l rest ih =>
    intro s h hlt hp
    rw [List.foldl_cons]
    rw [stepLine_text (h l (List.mem_cons_self l rest)) hlt]
    rw [if_neg hp]
    rw [ih _ (fun d hd => h d (List.mem_cons_of_mem l hd)) (by simpa using hlt) (by simp [hp])]
    simp [List.append_assoc]

/-- C5. For every non-empty input with no markdown tokens, no list-pattern
lines and no blank lines, renderMarkdown produces exactly one paragraph
element wrapping the input unchanged except that the line breaks become
break tags. -/
theorem renderMarkdown_plain_paragraph (text : String)
    (hchars : ∀ c ∈ text.data, ¬(c = '*') ∧ ¬(c = '_') ∧ ¬(c = btChar))
    (hlines : ∀ l ∈ splitLines text.data,
      parseOlL l = none ∧ parseUlL l = none ∧ isBlankL l = false) :
    renderMarkdown text =
      String.mk (pOpenTag ++ intercalateBr (splitLines text.data) ++ pCloseTag) := by
  have h0 : ¬(text = "") := by
    intro h
    subst h
    have := (hlines [] (by simp [splitLines])).2.2
    simp [isBlankL] at this
  have hline : ∀ l ∈ splitLines text.data, classify (applyInline l) = .textLine l := by
    intro l hl
    have hid := applyInline_id l
      (fun c hc => hchars c (splitLines_subset text.data l hl c hc))
    rw [hid]
    obtain ⟨p1, p2, p3⟩ := hlines l hl
    exact classify_text p1 p2 p3
  cases hsp : splitLines text.data with
  | nil => exact absurd hsp (splitLines_ne_nil _)
  | cons l0 rest =>
    have hl0mem : l0 ∈ splitLines text.data := by
      rw [hsp]
      exact List.mem_cons_self l0 rest
    have hl0ne : ¬(l0 = []) := by
      intro h
      have := (hlines l0 hl0mem).2.2
      rw [h] at this
      simp [isBlankL] at this
    unfold renderMarkdown
    rw [if_neg h0, hsp, List.foldl_cons]
    rw [stepLine_text (hline l0 hl0mem) rfl]
    have hstep : ({ (⟨[], none, []⟩ : MdState) with
        para := (⟨[], none, []⟩ : MdState).para ++
          (if (⟨[], none, []⟩ : MdState).para = [] then [] else brTag) ++ l0 }) =
        (⟨[], none, l0⟩ : MdState) := by
      simp
    rw [hstep]
    rw [foldl_textLines rest ⟨[], none, l0⟩
      (fun d hd => hline d (by rw [hsp]; exact List.mem_cons_of_mem l0 hd))
      rfl hl0ne]
    have hpne : ¬(l0 ++ (rest.map (fun r => brTag ++ r)).flatten = []) := by
      simp [hl0ne]
    unfold flushPara
    rw [if_neg hpne]
    unfold flushList
    simp [intercalateBr]

/-- Characters of the whitespace class are not markdown marker
characters. -/
theorem ws_not_special (c : Char) (h : jsWs c = true) :
    ¬(c = '*') ∧ ¬(c = '_') ∧ ¬(c = btChar) := by
  simp [jsWs] at h
  rcases h with ((((((rfl | rfl) | rfl) | rfl) | rfl) | rfl) | rfl) | rfl <;>
    exact ⟨by decide, by decide, by decide⟩

/-- A line of only whitespace is dispatched to the blank branch. -/
theorem classify_blank {l : List Char} (h : isBlankL l = true) :
    classify (applyInline l) = .blank := by
  have hws : ∀ c ∈ l, jsWs c = true := by
    simpa [isBlankL, List.all_eq_true] using h
  rw [applyInline_id l (fun c hc => ws_not_special c (hws c hc))]
  have hdw : l.dropWhile jsWs = [] := List.dropWhile_eq_nil_iff.mpr hws
  simp [classify, parseOlL, parseUlL, hdw, h]

theorem stepLine_blank_init {l : List Char} (h : isBlankL l = true) :
    stepLine ⟨[], none, []⟩ l = ⟨[], none, []⟩ := by
  simp [stepLine, classify_blank h, flushList, flushPara]

/-- C10. The empty string renders to the empty fragment, and so does every
input all of whose lines are blank: no empty paragraph element is
emitted. -/
theorem renderMarkdown_blank_empty :
    renderMarkdown "" = "" ∧
    ∀ text : String, (∀ l ∈ splitLines text.data, isBlankL l = true) →
      renderMarkdown text = "" := by
  constructor
  · rfl
  · intro text h
    by_cases h0 : text = ""
    · subst h0; rfl
    · unfold renderMarkdown
      rw [if_neg h0]
      have hfold : ∀ lines : List (List Char), (∀ l ∈ lines, isBlankL l = true) →
          lines.foldl stepLine ⟨[], none, []⟩ = ⟨[], none, []⟩ := by
        intro lines
        induction lines with
        | nil => intro _; rfl
        | cons l rest ih =>
          intro hh
          rw [List.foldl_cons, stepLine_blank_init (hh l (List.mem_cons_self l rest))]
          exact ih (fun d hd => hh d (List.mem_cons_of_mem l hd))
      rw [hfold (splitLines text.data) h]
      rfl

/-- Witness for C5 at a concrete plain two-line input. -/
theorem renderMarkdown_plain_paragraph_witness :
    (∀ c ∈ ("hello\nworld" : String).data, ¬(c = '*') ∧ ¬(c = '_') ∧ ¬(c = btChar)) ∧
    renderMarkdown "hello\nworld" =
      String.mk (pOpenTag ++ intercalateBr (splitLines ("hello\nworld" : String).data) ++
        pCloseTag) :=
  ⟨by decide, renderMarkdown_plain_paragraph "hello\nworld" (by decide) (by decide)⟩

/-- Witness for C10 at a concrete blank-lines-only input. -/
theorem renderMarkdown_blank_empty_witness :
    renderMarkdown "\n  \n" = "" ∧ renderMarkdown "" = "" :=
  ⟨renderMarkdown_blank_empty.2 "\n  \n" (by decide), renderMarkdown_blank_empty.1⟩

/-! ## uploadToRagStore: the polling loop

The source starts an upload operation, then repeats: wait 3000 ms, fetch
the operation again, until the done flag is observed.  The remote side is
modelled as the done flag of the initial operation together with the done
flags the successive fetches would return; the loop is modelled with a fuel
bound so that divergence is the statement that no fuel suffices.  A run
returns the number of fetches performed together with the list of waits
(in milliseconds) the loop performed before each fetch. -/

def pollLoopAux (polls : Nat → Bool) : Nat → Bool → Nat → Option (Nat × List Nat)
  | _, true, k => some (k, List.replicate k 3000)
  | 0, false, _ => none
  | fuel + 1, false, k => pollLoopAux polls fuel (polls k) (k + 1)

/-- The polling phase of uploadToRagStore: done0 is the done flag of the
operation returned by the initial upload call, polls k the flag returned by
the k-th re-fetch. -/
def uploadToRagStorePoll (done0 : Bool) (polls : Nat → Bool) (fuel : Nat) :
    Option (Nat × List Nat) :=
  pollLoopAux polls fuel done0 0

theorem pollLoopAux_diverge (polls : Nat → Bool) (hall : ∀ j, polls j = false) :
    ∀ fuel k, pollLoopAux polls fuel false k = none := by
  intro fuel
  induction fuel with
  | zero => intro k; rfl
  | succ f ih =>
    intro k
    show pollLoopAux polls f (polls k) (k + 1) = none
    rw [hall k]
    exact ih (k + 1)

theorem pollLoopAux_first_true (polls : Nat → Bool) :
    ∀ n k fuel, polls (k + n) = true → (∀ m < n, polls (k + m) = false) →
    n < fuel →
    pollLoopAux polls fuel false k = some (k + n + 1, List.replicate (k + n + 1) 3000) := by
  intro n
  induction n with
  | zero =>
    intro k fuel htrue _ hfuel
    match fuel, hfuel with
    | f + 1, _ =>
      show pollLoopAux polls f (polls k) (k + 1) = _
      have hk : polls k = true := by simpa using htrue
      rw [hk]
      have hred : pollLoopAux polls f true (k + 1) =
          some (k + 1, List.replicate (k + 1) 3000) := by
        cases f <;> rfl
      rw [hred]
  | succ n ih =>
    intro k fuel htrue hfalse hfuel
    match fuel, hfuel with
    | f + 1, hf =>
      show pollLoopAux polls f (polls k) (k + 1) = _
      have h0 : polls k = false := by simpa using hfalse 0 (Nat.succ_pos n)
      rw [h0]
      have := ih (k + 1) f (by rw [show k + 1 + n = k + (n + 1) by omega]; exact htrue)
        (fun m hm => by
          rw [show k + 1 + m = k + (m + 1) by omega]
          exact hfalse (m + 1) (by omega))
        (by omega)
      rw [this]
      have harith : k + 1 + n + 1 = k + (n + 1) + 1 := by omega
      rw [harith]

/-- C6. The upload polling loop waits a fixed 3000 ms before every fetch,
with no backoff and no retry bound: if the initial operation is already
done no fetch happens; if the initial operation is not done and the n-th
fetch is the first to report done, the loop terminates after exactly n+1
fetches, each preceded by a 3000 ms wait; and if no fetch ever reports
done, no fuel bound makes the loop terminate. -/
theorem uploadToRagStorePoll_spec (done0 : Bool) (polls : Nat → Bool) :
    (done0 = true → ∀ fuel, uploadToRagStorePoll done0 polls fuel = some (0, [])) ∧
    (done0 = false → ∀ n, polls n = true → (∀ m < n, polls m = false) →
      ∀ fuel, n < fuel →
      uploadToRagStorePoll done0 polls fuel =
        some (n + 1, List.replicate (n + 1) 3000)) ∧
    (done0 = false → (∀ j, polls j = false) →
      ∀ fuel, uploadToRagStorePoll done0 polls fuel = none) := by
  refine ⟨?_, ?_, ?_⟩
  · intro h fuel
    subst h
    cases fuel <;> rfl
  · intro h n htrue hfalse fuel hfuel
    subst h
    have := pollLoopAux_first_true polls n 0 fuel (by simpa using htrue)
      (fun m hm => by simpa using hfalse m hm) hfuel
    simpa [uploadToRagStorePoll] using this
  · intro h hall fuel
    subst h
    exact pollLoopAux_diverge polls hall fuel 0

/-- Witness for C6: a run whose second fetch is the first to report done
performs exactly two fetches with two fixed 3000 ms waits, and a
never-done run returns nothing at a sample fuel. -/
theorem uploadToRagStorePoll_spec_witness :
    uploadToRagStorePoll false (fun k => decide (k = 1)) 5 =
      some (2, List.replicate 2 3000) ∧
    uploadToRagStorePoll false (fun _ => false) 7 = none :=
  ⟨(uploadToRagStorePoll_spec false (fun k => decide (k = 1))).2.1 rfl 1 (by decide)
      (by decide) 5 (by decide),
    (uploadToRagStorePoll_spec false (fun _ => false)).2.2 rfl (fun _ => rfl) 7⟩

/-! ## generateExampleQuestions: shape handling of the parsed response

The parsed JSON value is probed: an empty array gives no questions; if the
first element is an object carrying a questions array, every element
contributes its questions property (flattened when it is an array, the
value itself when it is a truthy non-array, nothing when absent or falsy),
with property access on a null element throwing, which the surrounding
catch turns into the empty list; if the first element is a string the array
is filtered to its strings; anything else degrades to the empty list with a
logged warning. -/

inductive Json where
  | null
  | bool (b : Bool)
  | num (n : Int)
  | str (s : String)
  | arr (items : List Json)
  | obj (fields : List (String × Json))

/-- JavaScript truthiness of a JSON value. -/
def truthy : Json → Bool
  | .null => false
  | .bool b => b
  | .num n => !(n == 0)
  | .str s => !(s == "")
  | .arr _ => true
  | .obj _ => true

def lookupField : List (String × Json) → String → Option Json
  | [], _ => none
  | (k, v) :: rest, key => if k = key then some v else lookupField rest key

def isStrJ : Json → Bool
  | .str _ => true
  | _ => false

def isArrJ : Json → Bool
  | .arr _ => true
  | _ => false

def isNullJ : Json → Bool
  | .null => true
  | _ => false

def getStr : Json → Option String
  | .str s => some s
  | _ => none

/-- The detection probe of the grouped format: an object whose questions
property is an array. -/
def isObjWithQuestionsArr : Json → Bool
  | .obj fields =>
    match lookupField fields "questions" with
    | some (.arr _) => true
    | _ => false
  | _ => false

/-- The full object shape named by the specification: a product property
together with a questions array. -/
def hasProductAndQuestions : Json → Bool
  | .obj fields =>
    match lookupField fields "product", lookupField fields "questions" with
    | some _, some (.arr _) => true
    | _, _ => false
  | _ => false

/-- What one element contributes to the flatMap over the questions
properties; property access on null throws. -/
def questionsOf : Json → Except Unit (List Json)
  | .null => .error ()
  | .obj fields =>
    match lookupField fields "questions" with
    | none => .ok []
    | some v =>
      .ok (if truthy v then
        match v with
        | .arr xs => xs
        | _ => [v]
      else [])
  | _ => .ok []

/-- The value of questionsOf away from the throwing case. -/
def questionsFlat : Json → List Json
  | .obj fields =>
    match lookupField fields "questions" with
    | none => []
    | some v =>
      if truthy v then
        match v with
        | .arr xs => xs
        | _ => [v]
      else []
  | _ => []

/-- Left-to-right evaluation of the flatMap callback, aborting at the
first throw. -/
def mapQuestions : List Json → Except Unit (List (List Json))
  | [] => .ok []
  | x :: xs =>
    match questionsOf x with
    | .error e => .error e
    | .ok q =>
      match mapQuestions xs with
      | .error e => .error e
      | .ok qs => .ok (q :: qs)

/-- The shape handling applied to the parsed response value. -/
def extractQuestions : Json → List String
  | .arr [] => []
  | .arr (first :: rest) =>
    if isObjWithQuestionsArr first then
      match mapQuestions (first :: rest) with
      | .ok qss => qss.flatten.filterMap getStr
      | .error _ => []
    else if isStrJ first then (first :: rest).filterMap getStr
    else []
  | _ => []

theorem questionsOf_eq_ok {x : Json} (h : isNullJ x = false) :
    questionsOf x = .ok (questionsFlat x) := by
  cases x with
  | null => simp [isNullJ] at h
  | obj fields =>
    cases hl : lookupField fields "questions" with
    | none => simp [questionsOf, questionsFlat, hl]
    | some v => simp [questionsOf, questionsFlat, hl]
  | bool b => rfl
  | num n => rfl
  | str s => rfl
  | arr items => rfl

theorem questionsOf_null_eq {x : Json} (h : isNullJ x = true) :
    questionsOf x = .error () := by
  cases x with
  | null => rfl
  | bool b => simp [isNullJ] at h
  | num n => simp [isNullJ] at h
  | str s => simp [isNullJ] at h
  | arr items => simp [isNullJ] at h
  | obj fields => simp [isNullJ] at h

theorem mapQuestions_ok (xs : List Json) (h : ∀ x ∈ xs, isNullJ x = false) :
    mapQuestions xs = .ok (xs.map questionsFlat) := by
  induction xs with
  | nil => rfl
  | cons x rest ih =>
    simp [mapQuestions, questionsOf_eq_ok (h x (List.mem_cons_self x rest)),
      ih (fun d hd => h d (List.mem_cons_of_mem x hd))]

theorem mapQuestions_error (xs : List Json) (h : ∃ x ∈ xs, isNullJ x = true) :
    mapQuestions xs = .error () := by
  induction xs with
  | nil => simp at h
  | cons x rest ih =>
    obtain ⟨y, hy, hnull⟩ := h
    rcases List.mem_cons.mp hy with rfl | hmem
    · simp [mapQuestions, questionsOf_null_eq hnull]
    · by_cases hx : isNullJ x = true
      · simp [mapQuestions, questionsOf_null_eq hx]
      · have hxf : isNullJ x = false := by simpa using hx
        simp [mapQuestions, questionsOf_eq_ok hxf, ih ⟨y, hmem, hnull⟩]

theorem isObj_of_str {f : Json} (h : isStrJ f = true) :
    isObjWithQuestionsArr f = false := by
  cases f <;> simp [isStrJ, isObjWithQuestionsArr] at h ⊢

/-- C7 counterexample. The parsed value below is neither a flat array of
strings nor an array of product-questions objects (its second element is a
number), yet the function returns the first object's questions rather than
the empty list: the shape probe looks only at the first element. -/
theorem extractQuestions_mixed_not_empty :
    ¬(∀ x ∈ [Json.obj [("product", Json.str "P"), ("questions", Json.arr [Json.str "a"])],
        Json.num 42], isStrJ x = true) ∧
    ¬(∀ x ∈ [Json.obj [("product", Json.str "P"), ("questions", Json.arr [Json.str "a"])],
        Json.num 42], hasProductAndQuestions x = true) ∧
    extractQuestions (Json.arr
      [Json.obj [("product", Json.str "P"), ("questions", Json.arr [Json.str "a"])],
        Json.num 42]) = ["a"] := by
  refine ⟨by decide, by decide, ?_⟩
  rfl

/-- C7 amended. The response-shape handling keyed on the first element of
the parsed array: a string first element selects the filter-to-strings
rule over the whole array; an object first element carrying a questions
array selects the concatenation rule over every element's questions
property (a null element makes the whole call degrade to the empty list
through the catch); an empty array, a first element of any other kind, or
a non-array value gives the empty list. -/
theorem extractQuestions_spec :
    (∀ f rest, isStrJ f = true →
      extractQuestions (.arr (f :: rest)) = (f :: rest).filterMap getStr) ∧
    (∀ f rest, isObjWithQuestionsArr f = true →
      (∀ x ∈ f :: rest, isNullJ x = false) →
      extractQuestions (.arr (f :: rest)) =
        ((f :: rest).map questionsFlat).flatten.filterMap getStr) ∧
    (∀ f rest, isObjWithQuestionsArr f = true →
      (∃ x ∈ f :: rest, isNullJ x = true) →
      extractQuestions (.arr (f :: rest)) = []) ∧
    (∀ f rest, isObjWithQuestionsArr f = false → isStrJ f = false →
      extractQuestions (.arr (f :: rest)) = []) ∧
    extractQuestions (.arr []) = [] ∧
    (∀ j, isArrJ j = false → extractQuestions j = []) := by
  refine ⟨?_, ?_, ?_, ?_, rfl, ?_⟩
  · intro f rest h
    simp [extractQuestions, isObj_of_str h, h]
  · intro f rest h hnulls
    simp [extractQuestions, h, mapQuestions_ok _ hnulls]
  · intro f rest h hex
    simp [extractQuestions, h, mapQuestions_error _ hex]
  · intro f rest h1 h2
    simp [extractQuestions, h1, h2]
  · intro j h
    cases j with
    | arr items => simp [isArrJ] at h
    | null => rfl
    | bool b => rfl
    | num n => rfl
    | str s => rfl
    | obj fields => rfl

/-- Witness for the amended C7 at concrete values of each accepted
shape. -/
theorem extractQuestions_spec_witness :
    extractQuestions (.arr [.str "a", .num 1]) = ["a"] ∧
    extractQuestions (.arr [.obj [("questions", .arr [.str "q1", .num 7])],
      .obj [("product", .str "B"), ("questions", .arr [.str "q2"])]]) = ["q1", "q2"] ∧
    extractQuestions (.num 3) = [] :=
  ⟨(extractQuestions_spec.1 (.str "a") [.num 1] rfl).trans (by rfl),
    (extractQuestions_spec.2.1 (.obj [("questions", .arr [.str "q1", .num 7])])
      [.obj [("product", .str "B"), ("questions", .arr [.str "q2"])]]
      rfl (by decide)).trans (by rfl),
    extractQuestions_spec.2.2.2.2.2 (.num 3) rfl⟩

/-! ## The App orchestrator

State and handlers of the App component (src/App.tsx): the status machine,
the credential flag, the inline and global error messages, the upload
progress, the session handle, the chat history, the loading flag, the
example questions, the document label and the selected files (by name).
The browser key-value store is carried alongside; the handlers of
src/App.tsx never touch it, while the persistent App variant (the second
unit of the ClearChatIcon component file) synchronises it through an
effect, modelled below as storageSyncSession. -/

inductive AppStatus where
  | Initializing
  | Welcome
  | Uploading
  | Chatting
  | Error
deriving Repr, DecidableEq

inductive ChatRole where
  | user
  | model
deriving Repr, DecidableEq

structure MessagePart where
  text : String
deriving Repr, DecidableEq

/-- Opaque grounding citation payload returned by the remote query. -/
structure GroundingChunk where
  payload : String
deriving Repr, DecidableEq

/-- Chat turn. The interface itself is declared in the types module, which
is not among the sources; its shape is the one the spec data model states
and the App component uses: a role, an ordered sequence of text parts, and
optional grounding chunks. -/
structure ChatMessage where
  role : ChatRole
  parts : List MessagePart
  groundingChunks : Option (List GroundingChunk) := none
deriving Repr, DecidableEq

/-- Result of the fileSearch query wrapper. -/
structure QueryResult where
  text : String
  groundingChunks : List GroundingChunk
deriving Repr, DecidableEq

structure UploadProgress where
  current : Nat
  total : Nat
  message : Option String
  fileName : Option String
deriving Repr, DecidableEq

/-- A value in the browser key-value store; the JSON serialisation of the
history and question lists is modelled as the structured value itself. -/
inductive StoredVal where
  | str (s : String)
  | jsonMsgs (ms : List ChatMessage)
  | jsonStrs (qs : List String)
deriving Repr, DecidableEq

structure AppState where
  status : AppStatus
  isApiKeySelected : Bool
  apiKeyError : Option String
  error : Option String
  uploadProgress : Option UploadProgress
  activeRagStoreName : Option String
  chatHistory : List ChatMessage
  isQueryLoading : Bool
  exampleQuestions : List String
  documentName : String
  files : List String
  localStore : List (String × StoredVal)
deriving Repr, DecidableEq

def apiKeyRequiredMsg : String := "Per favore, seleziona o imposta la tua Chiave API Gemini."

def initFailedMsg : String :=
  "Inizializzazione fallita. Assicurati che la tua chiave API sia valida."

/-- Message of the exception initialize throws when no key is
configured. -/
def initKeyMissingMsg : String :=
  "La Chiave API non è configurata. Forniscine una o imposta la variabile d\x27ambiente API_KEY."

def invalidKeyMsg : String :=
  "La chiave API fornita non è valida. Selezionane una diversa o impostane una corretta e riprova."

def uploadFailedMsg : String := "Impossibile avviare la sessione di chat"

def queryFailedMsg : String := "Impossibile ottenere una risposta"

def apologyText : String := "Spiacente, ho riscontrato un errore. Riprova."

/-- handleError: records the message joined with the cause of the (always
truthy) exception, and routes to the global Error state. -/
def handleError (s : AppState) (message : String) (errMessage : String) : AppState :=
  { s with error := some (message ++ ": " ++ errMessage), status := .Error }

/-- The needle matches at the head of the haystack. -/
def substrAt : List Char → List Char → Bool
  | [], _ => true
  | _ :: _, [] => false
  | n :: ns, h :: hs => n == h && substrAt ns hs

/-- Substring containment, as the JavaScript String includes method. -/
def containsSub : List Char → List Char → Bool
  | [], needle => needle.isEmpty
  | h :: hs, needle => substrAt needle (h :: hs) || containsSub hs needle

/-- ASCII lowering of one character, as the toLowerCase the comparison
relies on behaves on the recognised phrases. -/
def toLowerCh (c : Char) : Char :=
  if 'A' ≤ c ∧ c ≤ 'Z' then Char.ofNat (c.toNat + 32) else c

/-- The invalid-credential error signature of the upload catch: the
lower-cased message contains one of the two recognised phrases. -/
def invalidKeySignature (errMessage : String) : Bool :=
  containsSub (errMessage.data.map toLowerCh) "api key not valid".data ||
  containsSub (errMessage.data.map toLowerCh) "requested entity was not found".data

/-- Document label derived on upload success. -/
def docLabel (files : List String) : String :=
  if files.length = 1 then files.getD 0 ""
  else if files.length = 2 then files.getD 0 "" ++ " e " ++ files.getD 1 ""
  else toString files.length ++ " documenti"

/-- Outcomes the remote service would give to one upload run: the store
creation result, the error (if any) each per-file upload would throw, and
the example questions (generateExampleQuestions catches its own failures
and returns a list in all cases). -/
structure RemoteEnv where
  createRes : Except String String
  uploadErr : Nat → Option String
  questions : List String

/-- First failing upload among the files, scanned in order. -/
def firstUploadErr (uploadErr : Nat → Option String) : Nat → Nat → Option (Nat × String)
  | 0, _ => none
  | n + 1, i =>
    match uploadErr i with
    | some m => some (i, m)
    | none => firstUploadErr uploadErr n (i + 1)

/-- Outcome of the try block of handleUploadAndStartChat: create the
store, upload each file in order stopping at the first failure, then
request the example questions. -/
def uploadAttempt (files : List String) (env : RemoteEnv) :
    Except String (String × List String) :=
  match env.createRes with
  | .error m => .error m
  | .ok ragStoreName =>
    match firstUploadErr env.uploadErr files.length 0 with
    | some (_, m) => .error m
    | none => .ok (ragStoreName, env.questions)

/-- The service calls an upload run performs, for the call-trace
companion. -/
inductive RemoteCall where
  | initClient
  | createStore
  | uploadFile (ix : Nat)
  | genQuestions
deriving Repr, DecidableEq

/-- handleUploadAndStartChat. Validation: a missing credential sets the
inline message and throws; zero files returns at once.  Then the inline
message is cleared, the client is initialised (initialise failure routes
to Error), the try block runs, and on success the questions, label,
handle, fresh history, Chatting status and cleared file list are set; the
catch routes an invalid-credential signature back to Welcome with the
credential unselected and the inline message set, anything else to Error;
the finally clears the progress. -/
def handleUploadAndStartChat (s : AppState) (apiKeyPresent : Bool) (env : RemoteEnv) :
    AppState :=
  if s.isApiKeySelected = false then
    { s with apiKeyError := some apiKeyRequiredMsg }
  else if s.files.length = 0 then s
  else
    let s1 := { s with apiKeyError := none }
    if apiKeyPresent = false then
      handleError s1 initFailedMsg initKeyMissingMsg
    else
      match uploadAttempt s1.files env with
      | .ok (ragStoreName, questions) =>
        { s1 with
            exampleQuestions := questions,
            documentName := docLabel s1.files,
            activeRagStoreName := some ragStoreName,
            chatHistory := [],
            status := .Chatting,
            files := [],
            uploadProgress := none }
      | .error m =>
        if invalidKeySignature m then
          { s1 with
              apiKeyError := some invalidKeyMsg,
              isApiKeySelected := false,
              status := .Welcome,
              uploadProgress := none }
        else
          { handleError s1 uploadFailedMsg m with uploadProgress := none }

/-- The service calls the same run performs. -/
def handleUploadCalls (s : AppState) (apiKeyPresent : Bool) (env : RemoteEnv) :
    List RemoteCall :=
  if s.isApiKeySelected = false then []
  else if s.files.length = 0 then []
  else if apiKeyPresent = false then [.initClient]
  else
    match env.createRes with
    | .error _ => [.initClient, .createStore]
    | .ok _ =>
      match firstUploadErr env.uploadErr s.files.length 0 with
      | some (i, _) => .initClient :: .createStore :: (List.range (i + 1)).map .uploadFile
      | none => .initClient :: .createStore ::
          ((List.range s.files.length).map .uploadFile ++ [.genQuestions])

/-- handleEndChat: best-effort background deletion of the remote store,
then the handle, history, questions, label and files are cleared together
and the status returns to Welcome. -/
def handleEndChat (s : AppState) : AppState :=
  { s with
      activeRagStoreName := none,
      chatHistory := [],
      exampleQuestions := [],
      documentName := "",
      files := [],
      status := .Welcome }

def userTurn (message : String) : ChatMessage :=
  { role := .user, parts := [⟨message⟩] }

def modelTurn (result : QueryResult) : ChatMessage :=
  { role := .model, parts := [⟨result.text⟩],
    groundingChunks := some result.groundingChunks }

def apologyTurn : ChatMessage :=
  { role := .model, parts := [⟨apologyText⟩] }

/-- The synchronous opening of handleSendMessage: the user turn is
appended and the loading flag set. -/
def sendMessageBegin (s : AppState) (message : String) : AppState :=
  { s with chatHistory := s.chatHistory ++ [userTurn message], isQueryLoading := true }

/-- handleSendMessage: nothing happens without an active handle; otherwise
the user turn is appended and the loading flag set, then on success a
model turn with the response text and grounding chunks is appended, on
failure the fixed apology turn is appended and the error surfaced through
handleError; the finally clears the loading flag. -/
def handleSendMessage (s : AppState) (message : String)
    (outcome : Except String QueryResult) : AppState :=
  match s.activeRagStoreName with
  | none => s
  | some _ =>
    let s1 := sendMessageBegin s message
    let s2 :=
      match outcome with
      | .ok result => { s1 with chatHistory := s1.chatHistory ++ [modelTurn result] }
      | .error e =>
        handleError { s1 with chatHistory := s1.chatHistory ++ [apologyTurn] }
          queryFailedMsg e
    { s2 with isQueryLoading := false }

/-! ## The localStorage synchronisation effect of the persistent variant -/

def removeItem : List (String × StoredVal) → String → List (String × StoredVal)
  | [], _ => []
  | (k, v) :: rest, key =>
    if k = key then removeItem rest key else (k, v) :: removeItem rest key

def setItem (store : List (String × StoredVal)) (key : String) (v : StoredVal) :
    List (String × StoredVal) :=
  removeItem store key ++ [(key, v)]

def getItem : List (String × StoredVal) → String → Option StoredVal
  | [], _ => none
  | (k, v) :: rest, key => if k = key then some v else getItem rest key

/-- The effect watching the handle, label, history and questions: with an
active handle all four entries are written; without one all four are
removed together. -/
def storageSyncSession (s : AppState) : AppState :=
  match s.activeRagStoreName with
  | some name =>
    let st1 := setItem s.localStore "ragStoreName" (.str name)
    let st2 := setItem st1 "documentName" (.str s.documentName)
    let st3 := setItem st2 "chatHistory" (.jsonMsgs s.chatHistory)
    let st4 := setItem st3 "exampleQuestions" (.jsonStrs s.exampleQuestions)
    { s with localStore := st4 }
  | none =>
    let st1 := removeItem s.localStore "ragStoreName"
    let st2 := removeItem st1 "documentName"
    let st3 := removeItem st2 "chatHistory"
    let st4 := removeItem st3 "exampleQuestions"
    { s with localStore := st4 }

/-! ## Sample states and environments used by the concrete witnesses -/

def sampleFilesState : AppState :=
  { status := .Welcome, isApiKeySelected := true, apiKeyError := none, error := none,
    uploadProgress := none, activeRagStoreName := none, chatHistory := [],
    isQueryLoading := false, exampleQuestions := [], documentName := "",
    files := ["a.pdf", "b.pdf", "c.pdf"], localStore := [] }

def sampleNoKeyNoFilesState : AppState :=
  { sampleFilesState with isApiKeySelected := false, files := [] }

def sampleKeyNoFilesState : AppState := { sampleFilesState with files := [] }

def sampleChatState : AppState :=
  { sampleFilesState with activeRagStoreName := some "stores/s", files := [] }

def sampleEnvOk : RemoteEnv := ⟨.ok "stores/new", fun _ => none, ["q1", "q2"]⟩

def sampleEnvInvalidKey : RemoteEnv := ⟨.error "API key not valid.", fun _ => none, []⟩

def sampleEnvBoom : RemoteEnv := ⟨.error "connection reset", fun _ => none, []⟩

/-! ## C1: routing of upload failures -/

/-- C1. A failure of the upload try block whose message carries the
invalid-credential signature (case-insensitive containment of one of the
two recognised phrases) routes back to Welcome with the credential marked
unselected and the inline message set; any other failure of the try block
routes to the global Error state, not to Welcome. -/
theorem uploadFailure_routing (s : AppState) (env : RemoteEnv) (m : String)
    (hkey : s.isApiKeySelected = true) (hfiles : ¬(s.files.length = 0))
    (hfail : uploadAttempt s.files env = .error m) :
    (invalidKeySignature m = true →
      (handleUploadAndStartChat s true env).status = .Welcome ∧
      (handleUploadAndStartChat s true env).isApiKeySelected = false ∧
      (handleUploadAndStartChat s true env).apiKeyError = some invalidKeyMsg) ∧
    (invalidKeySignature m = false →
      (handleUploadAndStartChat s true env).status = .Error ∧
      ¬((handleUploadAndStartChat s true env).status = .Welcome)) := by
  constructor <;> intro hsig <;>
    simp [handleUploadAndStartChat, hkey, hfiles, hfail, hsig, handleError]

/-- Witness for C1: a create-store failure with the recognised signature
returns to Welcome with the credential cleared; a connection failure goes
to Error. -/
theorem uploadFailure_routing_witness :
    ((handleUploadAndStartChat sampleFilesState true sampleEnvInvalidKey).status = .Welcome ∧
      (handleUploadAndStartChat sampleFilesState true sampleEnvInvalidKey).isApiKeySelected
        = false ∧
      (handleUploadAndStartChat sampleFilesState true sampleEnvInvalidKey).apiKeyError
        = some invalidKeyMsg) ∧
    ((handleUploadAndStartChat sampleFilesState true sampleEnvBoom).status = .Error ∧
      ¬((handleUploadAndStartChat sampleFilesState true sampleEnvBoom).status = .Welcome)) :=
  ⟨(uploadFailure_routing sampleFilesState sampleEnvInvalidKey "API key not valid."
      rfl (by decide) rfl).1 (by decide),
    (uploadFailure_routing sampleFilesState sampleEnvBoom "connection reset"
      rfl (by decide) rfl).2 (by decide)⟩

/-! ## C3: the derived document label -/

/-- C3. On upload success the document label is the single file name for
one file, the two names joined by the conjunction for two files, and the
count followed by the plural noun for more than two. -/
theorem uploadSuccess_docLabel (s : AppState) (env : RemoteEnv) (rn : String)
    (qs : List String) (hkey : s.isApiKeySelected = true)
    (hfiles : ¬(s.files.length = 0))
    (hok : uploadAttempt s.files env = .ok (rn, qs)) :
    (handleUploadAndStartChat s true env).documentName = docLabel s.files ∧
    (s.files.length = 1 →
      (handleUploadAndStartChat s true env).documentName = s.files.getD 0 "") ∧
    (s.files.length = 2 →
      (handleUploadAndStartChat s true env).documentName =
        s.files.getD 0 "" ++ " e " ++ s.files.getD 1 "") ∧
    (2 < s.files.length →
      (handleUploadAndStartChat s true env).documentName =
        toString s.files.length ++ " documenti") := by
  have hdoc : (handleUploadAndStartChat s true env).documentName = docLabel s.files := by
    simp [handleUploadAndStartChat, hkey, hfiles, hok]
  refine ⟨hdoc, ?_, ?_, ?_⟩ <;> intro hn <;> rw [hdoc]
  · simp [docLabel, hn]
  · simp [docLabel, hn]
  · have h1 : ¬(s.files.length = 1) := by omega
    have h2 : ¬(s.files.length = 2) := by omega
    simp [docLabel, h1, h2]

/-- Witness for C3 at a successful three-file upload. -/
theorem uploadSuccess_docLabel_witness :
    (handleUploadAndStartChat sampleFilesState true sampleEnvOk).documentName =
      docLabel sampleFilesState.files ∧
    (handleUploadAndStartChat sampleFilesState true sampleEnvOk).documentName =
      toString sampleFilesState.files.length ++ " documenti" :=
  ⟨(uploadSuccess_docLabel sampleFilesState sampleEnvOk "stores/new" ["q1", "q2"]
      rfl (by decide) rfl).1,
    (uploadSuccess_docLabel sampleFilesState sampleEnvOk "stores/new" ["q1", "q2"]
      rfl (by decide) rfl).2.2.2 (by decide)⟩

/-! ## C9: confirming the upload with zero files -/

/-- C9 counterexample. With zero files and the credential not selected,
the confirm handler is not a no-op: the key check precedes the file check,
so the inline credential message is set and the state changes (the status
still does not transition and no calls are made). -/
theorem zeroFiles_noKey_not_noop :
    (handleUploadAndStartChat sampleNoKeyNoFilesState false sampleEnvOk).apiKeyError =
      some apiKeyRequiredMsg ∧
    sampleNoKeyNoFilesState.apiKeyError = none ∧
    ¬(handleUploadAndStartChat sampleNoKeyNoFilesState false sampleEnvOk =
      sampleNoKeyNoFilesState) := by
  refine ⟨rfl, rfl, ?_⟩
  intro h
  have := congrArg AppState.apiKeyError h
  simp [handleUploadAndStartChat, sampleNoKeyNoFilesState, sampleFilesState] at this

/-- C9 amended. Confirming the upload with zero files selected and the
credential selected is a no-op: the state is returned unchanged whatever
the remote side would answer, and no service call is made.  With the
credential unselected, the inline credential message is set and an
exception thrown, but the status still does not transition and no service
call is made. -/
theorem zeroFiles_noop (s : AppState) (apiKeyPresent : Bool) (env : RemoteEnv)
    (hfiles : s.files.length = 0) :
    (s.isApiKeySelected = true →
      handleUploadAndStartChat s apiKeyPresent env = s ∧
      handleUploadCalls s apiKeyPresent env = []) ∧
    (s.isApiKeySelected = false →
      handleUploadAndStartChat s apiKeyPresent env =
        { s with apiKeyError := some apiKeyRequiredMsg } ∧
      (handleUploadAndStartChat s apiKeyPresent env).status = s.status ∧
      handleUploadCalls s apiKeyPresent env = []) := by
  constructor <;> intro hkey <;>
    simp [handleUploadAndStartChat, handleUploadCalls, hkey, hfiles]

/-- Witness for the amended C9 in both credential situations. -/
theorem zeroFiles_noop_witness :
    (handleUploadAndStartChat sampleKeyNoFilesState true sampleEnvOk =
        sampleKeyNoFilesState ∧
      handleUploadCalls sampleKeyNoFilesState true sampleEnvOk = []) ∧
    (handleUploadAndStartChat sampleNoKeyNoFilesState true sampleEnvOk =
        { sampleNoKeyNoFilesState with apiKeyError := some apiKeyRequiredMsg } ∧
      (handleUploadAndStartChat sampleNoKeyNoFilesState true sampleEnvOk).status =
        sampleNoKeyNoFilesState.status ∧
      handleUploadCalls sampleNoKeyNoFilesState true sampleEnvOk = []) :=
  ⟨(zeroFiles_noop sampleKeyNoFilesState true sampleEnvOk rfl).1 rfl,
    (zeroFiles_noop sampleNoKeyNoFilesState true sampleEnvOk rfl).2 rfl⟩

/-! ## C2: the per-message dispatch -/

/-- C2. With an active store handle, the handler first appends the user
turn and sets the loading flag; on success a model turn carrying the
response text and grounding chunks follows the user turn; on failure the
fixed apology turn follows it and the status transitions to the global
Error state; in both outcomes the loading flag ends cleared. -/
theorem sendMessage_spec (s : AppState) (message : String)
    (outcome : Except String QueryResult) (r : String)
    (hactive : s.activeRagStoreName = some r) :
    (sendMessageBegin s message).chatHistory = s.chatHistory ++ [userTurn message] ∧
    (sendMessageBegin s message).isQueryLoading = true ∧
    (handleSendMessage s message outcome).isQueryLoading = false ∧
    (∀ result, outcome = .ok result →
      (handleSendMessage s message outcome).chatHistory =
        s.chatHistory ++ [userTurn message, modelTurn result] ∧
      (handleSendMessage s message outcome).status = s.status) ∧
    (∀ e, outcome = .error e →
      (handleSendMessage s message outcome).chatHistory =
        s.chatHistory ++ [userTurn message, apologyTurn] ∧
      (handleSendMessage s message outcome).status = .Error) := by
  refine ⟨rfl, rfl, ?_, ?_, ?_⟩
  · cases outcome <;> simp [handleSendMessage, hactive, sendMessageBegin, handleError]
  · intro result hout
    subst hout
    simp [handleSendMessage, hactive, sendMessageBegin]
  · intro e hout
    subst hout
    simp [handleSendMessage, hactive, sendMessageBegin, handleError]

/-- Witness for C2 at a concrete active-session state and a failing
query. -/
theorem sendMessage_spec_witness :
    (handleSendMessage sampleChatState "ciao" (.error "boom")).chatHistory =
      sampleChatState.chatHistory ++ [userTurn "ciao", apologyTurn] ∧
    (handleSendMessage sampleChatState "ciao" (.error "boom")).status = .Error :=
  (sendMessage_spec sampleChatState "ciao" (.error "boom") "stores/s" rfl).2.2.2.2
    "boom" rfl

/-! ## C8: session persistence -/

theorem getItem_removeItem_self (store : List (String × StoredVal)) (k : String) :
    getItem (removeItem store k) k = none := by
  induction store with
  | nil => rfl
  | cons kv rest ih =>
    obtain ⟨k0, v0⟩ := kv
    simp only [removeItem]
    by_cases h : k0 = k
    · rw [if_pos h]
      exact ih
    · rw [if_neg h]
      simp [getItem, h]
      exact ih

theorem getItem_removeItem_ne (store : List (String × StoredVal)) (k k' : String)
    (h : ¬(k = k')) : getItem (removeItem store k) k' = getItem store k' := by
  induction store with
  | nil => rfl
  | cons kv rest ih =>
    obtain ⟨k0, v0⟩ := kv
    simp only [removeItem]
    by_cases h0 : k0 = k
    · rw [if_pos h0]
      have : ¬(k0 = k') := by rw [h0]; exact h
      simp [getItem, this]
      exact ih
    · rw [if_neg h0]
      by_cases h1 : k0 = k'
      · simp [getItem, h1]
      · simp [getItem, h1]
        exact ih

theorem getItem_append (l1 l2 : List (String × StoredVal)) (key : String) :
    getItem (l1 ++ l2) key =
      match getItem l1 key with
      | some v => some v
      | none => getItem l2 key := by
  induction l1 with
  | nil => simp [getItem]
  | cons kv rest ih =>
    obtain ⟨k0, v0⟩ := kv
    by_cases h : k0 = key
    · simp [getItem, h]
    · simp [getItem, h, ih]

theorem getItem_setItem_self (store : List (String × StoredVal)) (k : String)
    (v : StoredVal) : getItem (setItem store k v) k = some v := by
  unfold setItem
  rw [getItem_append, getItem_removeItem_self]
  simp [getItem]

theorem getItem_setItem_ne (store : List (String × StoredVal)) (k : String)
    (v : StoredVal) (k' : String) (h : ¬(k = k')) :
    getItem (setItem store k v) k' = getItem store k' := by
  unfold setItem
  rw [getItem_append, getItem_removeItem_ne store k k' h]
  cases getItem store k' with
  | some w => rfl
  | none => simp [getItem, h]

/-- With an active handle, the synchronisation effect writes all four
session entries, each carrying the current value of its field. -/
theorem storageSync_active (s : AppState) (name : String)
    (h : s.activeRagStoreName = some name) :
    getItem (storageSyncSession s).localStore "ragStoreName" = some (.str name) ∧
    getItem (storageSyncSession s).localStore "documentName" =
      some (.str s.documentName) ∧
    getItem (storageSyncSession s).localStore "chatHistory" =
      some (.jsonMsgs s.chatHistory) ∧
    getItem (storageSyncSession s).localStore "exampleQuestions" =
      some (.jsonStrs s.exampleQuestions) := by
  simp only [storageSyncSession, h]
  refine ⟨?_, ?_, ?_, ?_⟩
  · rw [getItem_setItem_ne _ _ _ _ (by decide), getItem_setItem_ne _ _ _ _ (by decide),
      getItem_setItem_ne _ _ _ _ (by decide), getItem_setItem_self]
  · rw [getItem_setItem_ne _ _ _ _ (by decide), getItem_setItem_ne _ _ _ _ (by decide),
      getItem_setItem_self]
  · rw [getItem_setItem_ne _ _ _ _ (by decide), getItem_setItem_self]
  · rw [getItem_setItem_self]

/-- Without a handle, the synchronisation effect removes all four session
entries together. -/
theorem storageSync_cleared (s : AppState) (h : s.activeRagStoreName = none) :
    getItem (storageSyncSession s).localStore "ragStoreName" = none ∧
    getItem (storageSyncSession s).localStore "documentName" = none ∧
    getItem (storageSyncSession s).localStore "chatHistory" = none ∧
    getItem (storageSyncSession s).localStore "exampleQuestions" = none := by
  simp only [storageSyncSession, h]
  refine ⟨?_, ?_, ?_, ?_⟩
  · rw [getItem_removeItem_ne _ _ _ (by decide), getItem_removeItem_ne _ _ _ (by decide),
      getItem_removeItem_ne _ _ _ (by decide), getItem_removeItem_self]
  · rw [getItem_removeItem_ne _ _ _ (by decide), getItem_removeItem_ne _ _ _ (by decide),
      getItem_removeItem_self]
  · rw [getItem_removeItem_ne _ _ _ (by decide), getItem_removeItem_self]
  · rw [getItem_removeItem_self]

/-- C8. After a successful upload the synchronisation effect persists the
store handle, the document label, the (fresh) chat history and the example
questions to the key-value store, each entry equal to the corresponding
state field; ending the session clears all four persisted entries
together. -/
theorem sessionPersistence_spec (s : AppState) (env : RemoteEnv) (rn : String)
    (qs : List String) (hkey : s.isApiKeySelected = true)
    (hfiles : ¬(s.files.length = 0))
    (hok : uploadAttempt s.files env = .ok (rn, qs)) :
    (getItem (storageSyncSession (handleUploadAndStartChat s true env)).localStore
        "ragStoreName" = some (.str rn) ∧
      getItem (storageSyncSession (handleUploadAndStartChat s true env)).localStore
        "documentName" = some (.str (docLabel s.files)) ∧
      getItem (storageSyncSession (handleUploadAndStartChat s true env)).localStore
        "chatHistory" = some (.jsonMsgs []) ∧
      getItem (storageSyncSession (handleUploadAndStartChat s true env)).localStore
        "exampleQuestions" = some (.jsonStrs qs)) ∧
    (∀ s' : AppState,
      getItem (storageSyncSession (handleEndChat s')).localStore "ragStoreName" = none ∧
      getItem (storageSyncSession (handleEndChat s')).localStore "documentName" = none ∧
      getItem (storageSyncSession (handleEndChat s')).localStore "chatHistory" = none ∧
      getItem (storageSyncSession (handleEndChat s')).localStore "exampleQuestions" =
        none) := by
  constructor
  · have h1 : (handleUploadAndStartChat s true env).activeRagStoreName = some rn := by
      simp [handleUploadAndStartChat, hkey, hfiles, hok]
    have h2 : (handleUploadAndStartChat s true env).documentName = docLabel s.files := by
      simp [handleUploadAndStartChat, hkey, hfiles, hok]
    have h3 : (handleUploadAndStartChat s true env).chatHistory = [] := by
      simp [handleUploadAndStartChat, hkey, hfiles, hok]
    have h4 : (handleUploadAndStartChat s true env).exampleQuestions = qs := by
      simp [handleUploadAndStartChat, hkey, hfiles, hok]
    obtain ⟨g1, g2, g3, g4⟩ :=
      storageSync_active (handleUploadAndStartChat s true env) rn h1
    exact ⟨g1, by rw [g2, h2], by rw [g3, h3], by rw [g4, h4]⟩
  · intro s'
    exact storageSync_cleared (handleEndChat s') rfl

/-- Witness for C8 at a successful three-file upload and a session end. -/
theorem sessionPersistence_spec_witness :
    getItem (storageSyncSession
      (handleUploadAndStartChat sampleFilesState true sampleEnvOk)).localStore
      "ragStoreName" = some (.str "stores/new") ∧
    getItem (storageSyncSession (handleEndChat sampleChatState)).localStore
      "ragStoreName" = none :=
  ⟨(sessionPersistence_spec sampleFilesState sampleEnvOk "stores/new" ["q1", "q2"]
      rfl (by decide) rfl).1.1,
    ((sessionPersistence_spec sampleFilesState sampleEnvOk "stores/new" ["q1", "q2"]
      rfl (by decide) rfl).2 sampleChatState).1⟩
